import Mathlib

/-!
Shallow embedding of `pygenprop/results.py` (assignment-result tables of the
genome-properties pipeline) together with the parts of the data model the
module consumes from `pygenprop.assign` and `pygenprop.tree`, modelled from
the specification where the code is external to the repository snapshot.

Pandas data frames are embedded as association lists of rows; a cell is an
`Option Result`, where `none` stands for a pandas missing value (`NaN`).
-/

set_option autoImplicit false

namespace PyGenProp

/-- The three assignment result states of pygenprop, the strings
`"YES"`, `"NO"` and `"PARTIAL"` in the Python code. -/
inductive Result where
  | YES
  | NO
  | PARTIAL
deriving DecidableEq, Repr

/-- One cell of a pandas results table: a result string, or `none`
for a missing value (`NaN`). -/
abbrev Cell := Option Result

/-- Dictionary lookup on an association list: the value at the first
matching key, as Python `dict` access does. -/
def alookup {α β : Type} [DecidableEq α] (k : α) : List (α × β) → Option β
  | [] => none
  | p :: t => if p.1 = k then some p.2 else alookup k t

/-- The keys of an association list, in order. -/
def keysOf {α β : Type} (l : List (α × β)) : List α := l.map Prod.fst

/-- Dictionary update on an association list: replace the value at an
existing key in place, otherwise append, as Python `dict` assignment does. -/
def aset {α β : Type} [DecidableEq α] (k : α) (v : β) : List (α × β) → List (α × β)
  | [] => [(k, v)]
  | p :: t => if p.1 = k then (k, v) :: t else p :: aset k v t

/-- Deduplication keeping the first occurrence of each element, the order
`pandas.Series.unique` and index unions present values in. -/
def firstDedup {α : Type} [DecidableEq α] (seen : List α) : List α → List α
  | [] => []
  | a :: t => if a ∈ seen then firstDedup seen t else a :: firstDedup (a :: seen) t

mutual
/-- A genome property node, as exposed by `pygenprop.tree`
(external to the snapshot): identifier, display name and ordered steps.
Modelled from the spec: `Property` has an identifier, a display name and an
ordered sequence of steps. -/
inductive GenomeProperty where
  | mk (id : String) (name : String) (steps : List GPStep)

/-- A step of a genome property. Modelled from the spec: a step has a step
number, a name, a required flag, and zero or more child property references
(`step.genome_properties` in `results.py`); a step with no child properties
is determined directly from leaf evidence. -/
inductive GPStep where
  | mk (number : Nat) (name : String) (required : Bool)
       (genome_properties : List GenomeProperty)
end

/-- The identifier of a genome property (`genome_property.id`). -/
def GenomeProperty.id : GenomeProperty → String
  | .mk i _ _ => i

/-- The display name of a genome property (`genome_property.name`). -/
def GenomeProperty.name : GenomeProperty → String
  | .mk _ n _ => n

/-- The ordered steps of a genome property (`genome_property.steps`). -/
def GenomeProperty.steps : GenomeProperty → List GPStep
  | .mk _ _ s => s

/-- The number of a step (`step.number`). -/
def GPStep.number : GPStep → Nat
  | .mk n _ _ _ => n

/-- The name of a step (`step.name`). -/
def GPStep.name : GPStep → String
  | .mk _ n _ _ => n

/-- Whether the step counts towards its property's threshold.
Modelled from the spec: some steps are marked non-required/informational. -/
def GPStep.required : GPStep → Bool
  | .mk _ _ r _ => r

/-- The child properties of a step (`step.genome_properties`). -/
def GPStep.genome_properties : GPStep → List GenomeProperty
  | .mk _ _ _ c => c

/-- The genome properties tree as consumed by `results.py`: iterating the
tree enumerates all property objects, and one designated root exists.
Modelled from the spec: the tree exposes an enumerable set of all property
identifiers and a designated root. -/
structure GenomePropertiesTree where
  props : List GenomeProperty
  root : GenomeProperty

/-- A per-sample assignment cache, as exposed by `pygenprop.assign`
(external to the snapshot). Modelled from the spec: a sample name, a mapping
from property identifier to result, and a mapping from (property identifier,
step number) to result, kept as a dict of dicts. -/
structure AssignmentCache where
  sample_name : String
  property_assignments : List (String × Result)
  step_assignments : List (String × List (Nat × Result))

/-- Modelled from the spec: the enumerable set of property identifiers the
cache is aware of — the identifiers carrying a property assignment or a step
assignment. -/
def AssignmentCache.genome_property_identifiers (c : AssignmentCache) : List String :=
  firstDedup [] (keysOf c.property_assignments ++ keysOf c.step_assignments)

/-- Modelled from the spec: the cache operation removing all entries for a
given identifier, used by the synchronizer. -/
def AssignmentCache.flush_property_from_cache (c : AssignmentCache) (identifier : String) :
    AssignmentCache :=
  { c with
    property_assignments := c.property_assignments.filter (fun p => p.1 ≠ identifier)
    step_assignments := c.step_assignments.filter (fun p => p.1 ≠ identifier) }

/-- The identifiers of every property enumerated by the tree
(`set(genome_property.id for genome_property in genome_properties_tree)`
in `create_synchronized_assignment_cache`). -/
def tree_identifiers (tree : GenomePropertiesTree) : List String :=
  firstDedup [] (tree.props.map GenomeProperty.id)

/-- Embeds `create_synchronized_assignment_cache` of `results.py`: compute
the symmetric difference of the tree's and the cache's identifier sets,
deep-copy the cache and flush every unshared identifier from the copy.
The deep copy is the starting value of the fold; the symmetric difference
is enumerated as tree-only identifiers followed by cache-only ones. -/
def create_synchronized_assignment_cache (assignment_cache : AssignmentCache)
    (genome_properties_tree : GenomePropertiesTree) : AssignmentCache :=
  let tids := tree_identifiers genome_properties_tree
  let cids := assignment_cache.genome_property_identifiers
  let unshared := tids.filter (fun i => i ∉ cids) ++ cids.filter (fun i => i ∉ tids)
  unshared.foldl AssignmentCache.flush_property_from_cache assignment_cache

/-- Modelled from the spec: the three-way threshold combining a list of
result states — `YES` iff all are `YES`, `NO` iff none is above `NO`,
otherwise `PARTIAL`; combining an empty list is defined as `NO`. -/
def combine_results (rs : List Result) : Result :=
  if rs.isEmpty then .NO
  else if rs.all (· = .YES) then .YES
  else if rs.all (· = .NO) then .NO
  else .PARTIAL

/-- Record a step result in the cache's dict-of-dicts of step assignments. -/
def writeStep (c : AssignmentCache) (gid : String) (n : Nat) (r : Result) :
    AssignmentCache :=
  let inner := aset n r ((alookup gid c.step_assignments).getD [])
  { c with step_assignments := aset gid inner c.step_assignments }

/-- Record a property result in the cache's property assignments. -/
def writeProperty (c : AssignmentCache) (gid : String) (r : Result) :
    AssignmentCache :=
  { c with property_assignments := aset gid r c.property_assignments }

mutual
/-- Modelled from the spec: `assign_genome_property` of `pygenprop.assign`
(external to the snapshot). A property already present in the cache's result
map is returned without recomputation; otherwise every step is assigned,
each step result is written to the cache, the required step results are
combined by the three-way threshold, and the property's own result is
written to the cache before returning. -/
def assign_genome_property (cache : AssignmentCache) (genome_property : GenomeProperty) :
    AssignmentCache × Result :=
  match genome_property with
  | .mk i _ steps =>
    match alookup i cache.property_assignments with
    | some r => (cache, r)
    | none =>
      let sr := assignSteps cache i steps
      let req := (sr.2.filter (fun p => p.1)).map Prod.snd
      let result := combine_results req
      (writeProperty sr.1 i result, result)

/-- Assign every step of a property in order, writing each step's result
into the cache and collecting (required flag, result) pairs. -/
def assignSteps (cache : AssignmentCache) (gid : String) (steps : List GPStep) :
    AssignmentCache × List (Bool × Result) :=
  match steps with
  | [] => (cache, [])
  | s :: rest =>
    let one := assignStep cache gid s
    let c1 := writeStep one.1 gid s.number one.2
    let further := assignSteps c1 gid rest
    (further.1, (s.required, one.2) :: further.2)

/-- Modelled from the spec: a step with no child properties reads its result
from the cache's leaf evidence, `NO` when absent; a step with child
properties assigns each child recursively and combines the child results by
the three-way threshold. -/
def assignStep (cache : AssignmentCache) (gid : String) (s : GPStep) :
    AssignmentCache × Result :=
  match s with
  | .mk n _ _ children =>
    match children with
    | [] => (cache, ((alookup gid cache.step_assignments).bind (alookup n)).getD .NO)
    | _ :: _ =>
      let cr := assignChildren cache children
      (cr.1, combine_results cr.2)

/-- Assign a step's child properties left to right, threading the cache. -/
def assignChildren (cache : AssignmentCache) (children : List GenomeProperty) :
    AssignmentCache × List Result :=
  match children with
  | [] => (cache, [])
  | g :: t =>
    let one := assign_genome_property cache g
    let rest := assignChildren one.1 t
    (rest.1, one.2 :: rest.2)
end

/-- Embeds `bootstrap_assignments` of `results.py`: run the recursive
assignment from the tree's root over the cache and return the cache. -/
def bootstrap_assignments (assignment_cache : AssignmentCache)
    (genome_properties_tree : GenomePropertiesTree) : AssignmentCache :=
  (assign_genome_property assignment_cache genome_properties_tree.root).1

/-- Embeds `create_step_table_rows` of `results.py`: unfold the dict of
dicts of step assignments into rows keyed by (property id, step number). -/
def create_step_table_rows (step_assignments : List (String × List (Nat × Result))) :
    List ((String × Nat) × Result) :=
  step_assignments.flatMap (fun g => g.2.map (fun s => ((g.1, s.1), s.2)))

/-- Embeds `create_assignment_tables` of `results.py`: synchronize the cache
against the tree, bootstrap all assignments, and lay the property and step
assignments out as two single-sample tables. -/
def create_assignment_tables (genome_properties_tree : GenomePropertiesTree)
    (assignment_cache : AssignmentCache) :
    List (String × Result) × List ((String × Nat) × Result) :=
  let sanitized := create_synchronized_assignment_cache assignment_cache genome_properties_tree
  let assignments := bootstrap_assignments sanitized genome_properties_tree
  (assignments.property_assignments, create_step_table_rows assignments.step_assignments)

/-- A pandas data frame of results: named columns (one per sample) and rows
keyed by `κ`; a cell is `none` where the frame holds `NaN`. -/
structure ResultTable (κ : Type) where
  columns : List String
  rows : List (κ × List Cell)

/-- `pandas.concat(tables, axis=1)` with the default outer join: the row set
is the union of the single-column tables' row keys, and a cell is the
sample's value when present and `NaN` (`none`) when that sample's table has
no such row. -/
def outerConcat {κ : Type} [DecidableEq κ] (tables : List (List (κ × Result))) :
    List (κ × List Cell) :=
  let keys := firstDedup [] (tables.flatMap keysOf)
  keys.map (fun k => (k, tables.map (fun t => alookup k t)))

/-- Embeds the `GenomePropertiesResults` object of `results.py`: the tree,
the sample names, and the two combined result tables. -/
structure GenomePropertiesResults where
  tree : GenomePropertiesTree
  sample_names : List String
  property_results : ResultTable String
  step_results : ResultTable (String × Nat)

/-- Embeds `GenomePropertiesResults.__init__`: build the per-sample tables,
concatenate them column-wise and label the columns with the sample names in
input order. `pandas.concat` of an empty list raises, hence the `Option`. -/
def GenomePropertiesResults.init (genome_properties_results : List AssignmentCache)
    (genome_properties_tree : GenomePropertiesTree) : Option GenomePropertiesResults :=
  if genome_properties_results.isEmpty then none
  else
    let sample_names := genome_properties_results.map AssignmentCache.sample_name
    let ptables := genome_properties_results.map
      (fun a => (create_assignment_tables genome_properties_tree a).1)
    let stables := genome_properties_results.map
      (fun a => (create_assignment_tables genome_properties_tree a).2)
    some
      { tree := genome_properties_tree
        sample_names := sample_names
        property_results := { columns := sample_names, rows := outerConcat ptables }
        step_results := { columns := sample_names, rows := outerConcat stables } }

/-- Embeds `GenomePropertiesResults.get_property_result`: the row's value
vector, or a vector of `NO` of the column count when the row is absent
(the `KeyError` branch). -/
def GenomePropertiesResults.get_property_result (res : GenomePropertiesResults)
    (genome_property_id : String) : List Cell :=
  match alookup genome_property_id res.property_results.rows with
  | some row => row
  | none => List.replicate res.property_results.columns.length (some .NO)

/-- Embeds `GenomePropertiesResults.get_step_result`: the row's value vector
at (property id, step number), or a vector of `NO` of the column count when
the row is absent (the `KeyError` branch). -/
def GenomePropertiesResults.get_step_result (res : GenomePropertiesResults)
    (genome_property_id : String) (step_number : Nat) : List Cell :=
  match alookup (genome_property_id, step_number) res.step_results.rows with
  | some row => row
  | none => List.replicate res.step_results.columns.length (some .NO)

/-- `pandas.Series.nunique` of a row: the number of distinct values, missing
values not counted (`dropna=True` is the pandas default). -/
def sNunique (row : List Cell) : Nat :=
  (firstDedup [] (row.filterMap id)).length

/-- `pandas.Series.unique` of a row: the distinct values in order of first
appearance, a missing value included as `none`. -/
def sUnique (row : List Cell) : List Cell :=
  firstDedup [] row

/-- Embeds `GenomePropertiesResults.remove_results_with_shared_assignments`:
drop the rows with exactly one distinct non-missing value; with
`only_drop_no_assignments` drop only those among them whose first distinct
value (missing values included, as `Series.unique()[0]`) is `NO`. -/
def remove_results_with_shared_assignments {κ : Type}
    (results : ResultTable κ) (only_drop_no_assignments : Bool) : ResultTable κ :=
  { results with
    rows := results.rows.filter (fun p =>
      !(sNunique p.2 == 1
        && (!only_drop_no_assignments || (sUnique p.2).head? == some (some .NO)))) }

/-- Embeds the `differing_property_results` view of `results.py`. -/
def GenomePropertiesResults.differing_property_results (res : GenomePropertiesResults) :
    ResultTable String :=
  remove_results_with_shared_assignments res.property_results false

/-- Embeds the `differing_step_results` view of `results.py`. -/
def GenomePropertiesResults.differing_step_results (res : GenomePropertiesResults) :
    ResultTable (String × Nat) :=
  remove_results_with_shared_assignments res.step_results false

/-- Embeds the `supported_property_results` view of `results.py`. -/
def GenomePropertiesResults.supported_property_results (res : GenomePropertiesResults) :
    ResultTable String :=
  remove_results_with_shared_assignments res.property_results true

/-- Embeds the `supported_step_results` view of `results.py`. -/
def GenomePropertiesResults.supported_step_results (res : GenomePropertiesResults) :
    ResultTable (String × Nat) :=
  remove_results_with_shared_assignments res.step_results true

/-- A node of the nested dictionary produced by `generate_json_tree`: a
property node carries `property_id`, `name`, `enabled`, `result` and
`children`; a leaf step node carries `step_id`, `name`, `enabled` and
`result`. -/
inductive JsonNode where
  | prop (property_id : String) (name : String) (enabled : Bool)
         (result : List Cell) (children : List JsonNode)
  | leafStep (step_id : Nat) (name : String) (enabled : Bool)
             (result : List Cell)

mutual
/-- Embeds `GenomePropertiesResults.generate_json_tree`: a property node
with its identifier, display name, `enabled = False` and per-sample result
vector, whose children are, step by step, the recursively generated
subtrees of the step's child properties, or the step itself as a leaf node
when it has no child properties. -/
def GenomePropertiesResults.generate_json_tree (res : GenomePropertiesResults)
    (genome_properties_root : GenomeProperty) : JsonNode :=
  match genome_properties_root with
  | .mk i n steps =>
    JsonNode.prop i n false (res.get_property_result i)
      (jsonChildrenOfSteps res i steps)

/-- The `children` list of a property node, accumulated over the property's
steps in order, as the loop in `generate_json_tree` does. -/
def jsonChildrenOfSteps (res : GenomePropertiesResults) (gid : String) :
    List GPStep → List JsonNode
  | [] => []
  | s :: rest =>
    (match s with
     | .mk n nm _ children =>
       match children with
       | [] => [JsonNode.leafStep n nm false (res.get_step_result gid n)]
       | c :: t => jsonTreeList res (c :: t)) ++ jsonChildrenOfSteps res gid rest

/-- The recursively generated subtrees of a step's child properties. -/
def jsonTreeList (res : GenomePropertiesResults) :
    List GenomeProperty → List JsonNode
  | [] => []
  | g :: t => res.generate_json_tree g :: jsonTreeList res t
end

mutual
/-- The `enabled` flags of every node of a generated tree, root first. -/
def enabledFlags : JsonNode → List Bool
  | .prop _ _ e _ children => e :: enabledFlagsList children
  | .leafStep _ _ e _ => [e]

/-- The `enabled` flags of a list of nodes. -/
def enabledFlagsList : List JsonNode → List Bool
  | [] => []
  | n :: t => enabledFlags n ++ enabledFlagsList t
end

/-- A heap of Python cache objects: object identity is the index into the
list, so aliasing and in-place mutation can be spoken about. -/
structure CacheHeap where
  objects : List AssignmentCache

/-- Dereference a cache object. -/
def CacheHeap.get (h : CacheHeap) (r : Nat) : Option AssignmentCache :=
  h.objects[r]?

/-- Mutate the cache object at `r` in place. -/
def CacheHeap.write (h : CacheHeap) (r : Nat) (v : AssignmentCache) : CacheHeap :=
  ⟨h.objects.set r v⟩

/-- Embeds `create_synchronized_assignment_cache` at the level of object
identity: `deepcopy` allocates a fresh cache object holding the input's
value, and each `flush_property_from_cache` call reads and writes only that
fresh object; the input object is never written. -/
def create_synchronized_assignment_cache_stateful (heap : CacheHeap) (r : Nat)
    (genome_properties_tree : GenomePropertiesTree) : CacheHeap × Nat :=
  match heap.get r with
  | none => (heap, r)
  | some cache =>
    let tids := tree_identifiers genome_properties_tree
    let cids := cache.genome_property_identifiers
    let unshared := tids.filter (fun i => i ∉ cids) ++ cids.filter (fun i => i ∉ tids)
    let copyRef := heap.objects.length
    let heap1 : CacheHeap := ⟨heap.objects ++ [cache]⟩
    let heap2 := unshared.foldl
      (fun hh i =>
        hh.write copyRef (((hh.get copyRef).getD cache).flush_property_from_cache i))
      heap1
    (heap2, copyRef)

/-! Concrete instances used by counterexamples and witnesses: a tree whose
designated root `GP_R` has no steps, next to a property `GP_X` that the tree
enumerates but that is not reachable from the root, and small caches. -/

/-- A tree enumerating `GP_R` (the designated root, no steps) and `GP_X`
(not referenced by any step of the root). -/
def treeRX : GenomePropertiesTree :=
  { props := [GenomeProperty.mk "GP_R" "Root" [], GenomeProperty.mk "GP_X" "Ex" []]
    root := GenomeProperty.mk "GP_R" "Root" [] }

/-- A sample cache holding a `NO` property assignment for `GP_X`. -/
def cacheXNO : AssignmentCache :=
  { sample_name := "s1", property_assignments := [("GP_X", .NO)], step_assignments := [] }

/-- A sample cache holding a `YES` property assignment for `GP_X`. -/
def cacheXYES : AssignmentCache :=
  { sample_name := "s1", property_assignments := [("GP_X", .YES)], step_assignments := [] }

/-- An empty sample cache. -/
def cacheEmpty : AssignmentCache :=
  { sample_name := "s2", property_assignments := [], step_assignments := [] }

/-- The combined results of `[cacheXNO, cacheEmpty]` against `treeRX`:
sample `s2` has no row for `GP_X`, so its cell is `NaN`. -/
def resXNO : GenomePropertiesResults :=
  { tree := treeRX
    sample_names := ["s1", "s2"]
    property_results :=
      { columns := ["s1", "s2"]
        rows := [("GP_X", [some .NO, none]), ("GP_R", [some .NO, some .NO])] }
    step_results := { columns := ["s1", "s2"], rows := [] } }

/-- The combined results of `[cacheXYES, cacheEmpty]` against `treeRX`. -/
def resXYES : GenomePropertiesResults :=
  { tree := treeRX
    sample_names := ["s1", "s2"]
    property_results :=
      { columns := ["s1", "s2"]
        rows := [("GP_X", [some .YES, none]), ("GP_R", [some .NO, some .NO])] }
    step_results := { columns := ["s1", "s2"], rows := [] } }

/-- A results object with a row differing across two samples. -/
def resDemo : GenomePropertiesResults :=
  { tree := treeRX
    sample_names := ["s1", "s2"]
    property_results :=
      { columns := ["s1", "s2"], rows := [("GP_X", [some .YES, some .NO])] }
    step_results :=
      { columns := ["s1", "s2"], rows := [(("GP_X", 1), [some .YES, some .NO])] } }

/-- A one-object heap holding `cacheXNO`. -/
def heap0 : CacheHeap := { objects := [cacheXNO] }

/-! General lemmas about the association-list and deduplication helpers. -/

theorem alookup_eq_none_iff {α β : Type} [DecidableEq α] (l : List (α × β)) (k : α) :
    alookup k l = none ↔ k ∉ keysOf l := by
  induction l with
  | nil => simp [alookup, keysOf]
  | cons p t ih =>
    by_cases h : p.1 = k
    · simp [alookup, keysOf, h]
    · have hk : ¬ k = p.1 := fun e => h e.symm
      simp [alookup, keysOf, h, hk, ih]

theorem mem_firstDedup {α : Type} [DecidableEq α] (l : List α) (seen : List α) (x : α) :
    x ∈ firstDedup seen l ↔ x ∈ l ∧ x ∉ seen := by
  induction l generalizing seen with
  | nil => simp [firstDedup]
  | cons a t ih =>
    rw [firstDedup]
    by_cases ha : a ∈ seen
    · rw [if_pos ha, ih]
      constructor
      · rintro ⟨hx, hs⟩
        exact ⟨List.mem_cons_of_mem a hx, hs⟩
      · rintro ⟨hx, hs⟩
        rcases List.mem_cons.mp hx with rfl | hx
        · exact absurd ha hs
        · exact ⟨hx, hs⟩
    · rw [if_neg ha]
      constructor
      · intro hx
        rcases List.mem_cons.mp hx with rfl | hx
        · exact ⟨List.mem_cons_self _ _, ha⟩
        · obtain ⟨hxt, hxs⟩ := (ih (a :: seen)).mp hx
          exact ⟨List.mem_cons_of_mem a hxt, fun hmem => hxs (List.mem_cons_of_mem a hmem)⟩
      · rintro ⟨hx, hs⟩
        rcases List.mem_cons.mp hx with rfl | hx
        · exact List.mem_cons_self x _
        · by_cases hxa : x = a
          · subst hxa
            exact List.mem_cons_self x _
          · refine List.mem_cons_of_mem a ((ih (a :: seen)).mpr ⟨hx, ?_⟩)
            intro hmem
            rcases List.mem_cons.mp hmem with h1 | h1
            · exact hxa h1
            · exact hs h1

theorem firstDedup_eq_nil {α : Type} [DecidableEq α] (l : List α) (seen : List α)
    (h : ∀ x ∈ l, x ∈ seen) : firstDedup seen l = [] := by
  induction l generalizing seen with
  | nil => rfl
  | cons a t ih =>
    have ha : a ∈ seen := h a (List.mem_cons_self a t)
    simp only [firstDedup, if_pos ha]
    exact ih seen (fun x hx => h x (List.mem_cons_of_mem a hx))

theorem firstDedup_length_one_iff {α : Type} [DecidableEq α] (l : List α) :
    (firstDedup [] l).length = 1 ↔ l ≠ [] ∧ ∀ a ∈ l, ∀ b ∈ l, a = b := by
  constructor
  · intro h
    obtain ⟨a, ha⟩ := List.length_eq_one.mp h
    have hmem : ∀ x ∈ l, x = a := by
      intro x hx
      have : x ∈ firstDedup ([] : List α) l := (mem_firstDedup l [] x).mpr ⟨hx, by simp⟩
      rw [ha] at this
      simpa using this
    refine ⟨?_, fun x hx y hy => (hmem x hx).trans (hmem y hy).symm⟩
    rintro rfl
    simp [firstDedup] at ha
  · rintro ⟨hne, hall⟩
    match l with
    | [] => exact absurd rfl hne
    | v :: t =>
      have hv : v ∉ ([] : List α) := by simp
      simp only [firstDedup, if_neg hv]
      have : firstDedup [v] t = [] := by
        refine firstDedup_eq_nil t [v] (fun x hx => ?_)
        have := hall x (List.mem_cons_of_mem v hx) v (List.mem_cons_self v t)
        simp [this]
      simp [this]

theorem alookup_map_keys {κ β : Type} [DecidableEq κ] (keys : List κ) (f : κ → β) (k : κ) :
    alookup k (keys.map (fun x => (x, f x))) = if k ∈ keys then some (f k) else none := by
  induction keys with
  | nil => simp [alookup]
  | cons a t ih =>
    by_cases h : a = k
    · subst h
      simp [alookup]
    · simp only [List.map_cons, alookup, if_neg h, ih, List.mem_cons]
      have : ¬ k = a := fun hk => h hk.symm
      simp [this]

theorem alookup_filter_ne {α β : Type} [DecidableEq α] (l : List (α × β)) (i k : α) :
    alookup k (l.filter (fun p => p.1 ≠ i)) = if k = i then none else alookup k l := by
  induction l with
  | nil => simp [alookup]
  | cons p t ih =>
    by_cases hpi : p.1 = i
    · have hcond : (decide (p.1 ≠ i)) = false := by simp [hpi]
      simp only [List.filter_cons, hcond, Bool.false_eq_true, if_false, ih, alookup]
      by_cases hk : k = i
      · simp [hk]
      · have hpk : ¬ p.1 = k := by
          rw [hpi]
          exact fun h => hk h.symm
        simp [hk, hpk]
    · have hcond : (decide (p.1 ≠ i)) = true := by simp [hpi]
      simp only [List.filter_cons, hcond, if_true, alookup, ih]
      by_cases hpk : p.1 = k
      · have hk : ¬ k = i := by
          rw [← hpk]
          exact hpi
        simp [hpk, hk]
      · simp [hpk]

theorem mem_keysOf_filter_ne {α β : Type} [DecidableEq α] (l : List (α × β)) (i x : α) :
    x ∈ keysOf (l.filter (fun p => p.1 ≠ i)) ↔ x ∈ keysOf l ∧ x ≠ i := by
  simp only [keysOf, List.mem_map, List.mem_filter, decide_eq_true_eq]
  constructor
  · rintro ⟨p, ⟨hp, hpi⟩, rfl⟩
    exact ⟨⟨p, hp, rfl⟩, hpi⟩
  · rintro ⟨⟨p, hp, rfl⟩, hxi⟩
    exact ⟨p, ⟨hp, hxi⟩, rfl⟩

/-! Lemmas about flushing identifiers from a cache. -/

theorem flushFold_property_alookup (ids : List String) (c : AssignmentCache) (x : String) :
    alookup x (ids.foldl AssignmentCache.flush_property_from_cache c).property_assignments
      = if x ∈ ids then none else alookup x c.property_assignments := by
  induction ids generalizing c with
  | nil => simp
  | cons i t ih =>
    simp only [List.foldl_cons, ih, List.mem_cons]
    by_cases hx : x ∈ t
    · simp [hx]
    · simp only [hx, or_false, AssignmentCache.flush_property_from_cache, if_neg hx]
      simpa using alookup_filter_ne c.property_assignments i x

theorem flushFold_step_alookup (ids : List String) (c : AssignmentCache) (x : String) :
    alookup x (ids.foldl AssignmentCache.flush_property_from_cache c).step_assignments
      = if x ∈ ids then none else alookup x c.step_assignments := by
  induction ids generalizing c with
  | nil => simp
  | cons i t ih =>
    simp only [List.foldl_cons, ih, List.mem_cons]
    by_cases hx : x ∈ t
    · simp [hx]
    · simp only [hx, or_false, AssignmentCache.flush_property_from_cache, if_neg hx]
      simpa using alookup_filter_ne c.step_assignments i x

theorem flushFold_mem_keys_property (ids : List String) (c : AssignmentCache) (x : String) :
    x ∈ keysOf (ids.foldl AssignmentCache.flush_property_from_cache c).property_assignments
      ↔ x ∈ keysOf c.property_assignments ∧ x ∉ ids := by
  induction ids generalizing c with
  | nil => simp
  | cons i t ih =>
    simp only [List.foldl_cons, ih, AssignmentCache.flush_property_from_cache,
      mem_keysOf_filter_ne, List.mem_cons]
    constructor
    · rintro ⟨⟨hk, hne⟩, ht⟩
      exact ⟨hk, by simp [hne, ht]⟩
    · rintro ⟨hk, hni⟩
      simp only [not_or] at hni
      exact ⟨⟨hk, hni.1⟩, hni.2⟩

theorem flushFold_mem_keys_step (ids : List String) (c : AssignmentCache) (x : String) :
    x ∈ keysOf (ids.foldl AssignmentCache.flush_property_from_cache c).step_assignments
      ↔ x ∈ keysOf c.step_assignments ∧ x ∉ ids := by
  induction ids generalizing c with
  | nil => simp
  | cons i t ih =>
    simp only [List.foldl_cons, ih, AssignmentCache.flush_property_from_cache,
      mem_keysOf_filter_ne, List.mem_cons]
    constructor
    · rintro ⟨⟨hk, hne⟩, ht⟩
      exact ⟨hk, by simp [hne, ht]⟩
    · rintro ⟨hk, hni⟩
      simp only [not_or] at hni
      exact ⟨⟨hk, hni.1⟩, hni.2⟩

theorem mem_genome_property_identifiers (c : AssignmentCache) (x : String) :
    x ∈ c.genome_property_identifiers
      ↔ x ∈ keysOf c.property_assignments ∨ x ∈ keysOf c.step_assignments := by
  simp [AssignmentCache.genome_property_identifiers, mem_firstDedup]

/-- C1: the cache produced by `create_synchronized_assignment_cache` holds
entries exactly for the identifiers in the intersection of the tree's
identifier set and the cache's identifier set; every identifier of the
symmetric difference is flushed, so its property and step entries are gone,
while entries of shared identifiers are kept unchanged. -/
theorem sync_cache_keeps_exactly_shared_identifiers
    (cache : AssignmentCache) (tree : GenomePropertiesTree) (x : String) :
    (x ∈ (create_synchronized_assignment_cache cache tree).genome_property_identifiers
       ↔ x ∈ tree_identifiers tree ∧ x ∈ cache.genome_property_identifiers)
  ∧ (alookup x (create_synchronized_assignment_cache cache tree).property_assignments
       = if x ∈ tree_identifiers tree then alookup x cache.property_assignments else none)
  ∧ (alookup x (create_synchronized_assignment_cache cache tree).step_assignments
       = if x ∈ tree_identifiers tree then alookup x cache.step_assignments else none) := by
  set tids := tree_identifiers tree with htids
  set cids := cache.genome_property_identifiers with hcids_def
  set unshared := tids.filter (fun i => i ∉ cids) ++ cids.filter (fun i => i ∉ tids)
    with hunsh_def
  have hsync : create_synchronized_assignment_cache cache tree
      = unshared.foldl AssignmentCache.flush_property_from_cache cache := rfl
  have hmem_un : ∀ y, y ∈ unshared ↔ ((y ∈ tids ∧ y ∉ cids) ∨ (y ∈ cids ∧ y ∉ tids)) := by
    intro y
    rw [hunsh_def]
    simp [List.mem_append, List.mem_filter]
  have hkc : x ∈ cids ↔ x ∈ keysOf cache.property_assignments ∨ x ∈ keysOf cache.step_assignments := by
    rw [hcids_def]
    exact mem_genome_property_identifiers cache x
  refine ⟨?_, ?_, ?_⟩
  · rw [hsync, mem_genome_property_identifiers, flushFold_mem_keys_property,
      flushFold_mem_keys_step]
    constructor
    · rintro (⟨hk, hnu⟩ | ⟨hk, hnu⟩)
      all_goals {
        have hc : x ∈ cids := by
          first
            | exact hkc.mpr (Or.inl hk)
            | exact hkc.mpr (Or.inr hk)
        refine ⟨?_, hc⟩
        by_contra ht
        exact hnu ((hmem_un x).mpr (Or.inr ⟨hc, ht⟩))
      }
    · rintro ⟨ht, hc⟩
      have hnu : x ∉ unshared := by
        intro hx
        rcases (hmem_un x).mp hx with ⟨_, h⟩ | ⟨_, h⟩
        · exact h hc
        · exact h ht
      rcases hkc.mp hc with hk | hk
      · exact Or.inl ⟨hk, hnu⟩
      · exact Or.inr ⟨hk, hnu⟩
  · rw [hsync, flushFold_property_alookup]
    by_cases ht : x ∈ tids <;> by_cases hc : x ∈ cids
    · have hxu : x ∉ unshared := by
        intro hx
        rcases (hmem_un x).mp hx with ⟨_, h⟩ | ⟨_, h⟩
        · exact h hc
        · exact h ht
      simp [hxu, ht]
    · have hxu : x ∈ unshared := (hmem_un x).mpr (Or.inl ⟨ht, hc⟩)
      have hnone : alookup x cache.property_assignments = none :=
        (alookup_eq_none_iff _ _).mpr (fun hk => hc (hkc.mpr (Or.inl hk)))
      simp [hxu, ht, hnone]
    · have hxu : x ∈ unshared := (hmem_un x).mpr (Or.inr ⟨hc, ht⟩)
      simp [hxu, ht]
    · have hxu : x ∉ unshared := by
        intro hx
        rcases (hmem_un x).mp hx with ⟨h, _⟩ | ⟨h, _⟩
        · exact ht h
        · exact hc h
      have hnone : alookup x cache.property_assignments = none :=
        (alookup_eq_none_iff _ _).mpr (fun hk => hc (hkc.mpr (Or.inl hk)))
      simp [hxu, ht, hnone]
  · rw [hsync, flushFold_step_alookup]
    by_cases ht : x ∈ tids <;> by_cases hc : x ∈ cids
    · have hxu : x ∉ unshared := by
        intro hx
        rcases (hmem_un x).mp hx with ⟨_, h⟩ | ⟨_, h⟩
        · exact h hc
        · exact h ht
      simp [hxu, ht]
    · have hxu : x ∈ unshared := (hmem_un x).mpr (Or.inl ⟨ht, hc⟩)
      have hnone : alookup x cache.step_assignments = none :=
        (alookup_eq_none_iff _ _).mpr (fun hk => hc (hkc.mpr (Or.inr hk)))
      simp [hxu, ht, hnone]
    · have hxu : x ∈ unshared := (hmem_un x).mpr (Or.inr ⟨hc, ht⟩)
      simp [hxu, ht]
    · have hxu : x ∉ unshared := by
        intro hx
        rcases (hmem_un x).mp hx with ⟨h, _⟩ | ⟨h, _⟩
        · exact ht h
        · exact hc h
      have hnone : alookup x cache.step_assignments = none :=
        (alookup_eq_none_iff _ _).mpr (fun hk => hc (hkc.mpr (Or.inr hk)))
      simp [hxu, ht, hnone]

theorem CacheHeap.get_mk (l : List AssignmentCache) (r : Nat) :
    CacheHeap.get ⟨l⟩ r = l[r]? := rfl

/-- The flushing loop of the stateful synchronizer writes only the copy's
cell: the copy ends up holding the fold of the flushes, and every other
cell of the heap is untouched. -/
theorem heapFoldWrite (ids : List String) (hh : CacheHeap) (cRef : Nat)
    (d v : AssignmentCache) (hv : hh.get cRef = some v) :
    ((ids.foldl
        (fun h2 i => h2.write cRef (((h2.get cRef).getD d).flush_property_from_cache i))
        hh).get cRef
      = some (ids.foldl AssignmentCache.flush_property_from_cache v))
  ∧ ∀ s : Nat, s ≠ cRef →
      ((ids.foldl
          (fun h2 i => h2.write cRef (((h2.get cRef).getD d).flush_property_from_cache i))
          hh).get s
        = hh.get s) := by
  induction ids generalizing hh v with
  | nil => exact ⟨hv, fun s _ => rfl⟩
  | cons i t ih =>
    simp only [List.foldl_cons]
    have hlt : cRef < hh.objects.length := by
      obtain ⟨hw, -⟩ := List.getElem?_eq_some.mp hv
      exact hw
    have e1 : ((hh.get cRef).getD d) = v := by rw [hv]; rfl
    have hget : (hh.write cRef (v.flush_property_from_cache i)).get cRef
        = some (v.flush_property_from_cache i) := by
      show (hh.objects.set cRef (v.flush_property_from_cache i))[cRef]? = _
      exact List.getElem?_set_self (by simpa using hlt)
    rw [e1]
    obtain ⟨h1, h2⟩ := ih (hh.write cRef (v.flush_property_from_cache i))
      (v.flush_property_from_cache i) hget
    refine ⟨h1, fun s hs => ?_⟩
    rw [h2 s hs]
    show (hh.objects.set cRef (v.flush_property_from_cache i))[s]? = hh.objects[s]?
    exact List.getElem?_set_ne (fun e => hs e.symm)

/-- C6: the stateful synchronizer never mutates its input cache object —
after the call the input cell still holds the original cache value — and
the returned reference is a fresh object, distinct from the input, holding
the synchronized value, whose later mutation leaves the input unchanged. -/
theorem sync_does_not_mutate_input (heap : CacheHeap) (r : Nat)
    (tree : GenomePropertiesTree) (cache : AssignmentCache)
    (h : heap.get r = some cache) :
    ((create_synchronized_assignment_cache_stateful heap r tree).1.get r = some cache)
  ∧ ((create_synchronized_assignment_cache_stateful heap r tree).2 ≠ r)
  ∧ ((create_synchronized_assignment_cache_stateful heap r tree).1.get
        (create_synchronized_assignment_cache_stateful heap r tree).2
      = some (create_synchronized_assignment_cache cache tree))
  ∧ (∀ v : AssignmentCache,
      ((create_synchronized_assignment_cache_stateful heap r tree).1.write
          (create_synchronized_assignment_cache_stateful heap r tree).2 v).get r
        = some cache) := by
  have hlt : r < heap.objects.length := by
    obtain ⟨hw, -⟩ := List.getElem?_eq_some.mp h
    exact hw
  have hstate : create_synchronized_assignment_cache_stateful heap r tree
      = (((tree_identifiers tree).filter
            (fun i => i ∉ cache.genome_property_identifiers)
          ++ cache.genome_property_identifiers.filter
            (fun i => i ∉ tree_identifiers tree)).foldl
            (fun hh i => hh.write heap.objects.length
              (((hh.get heap.objects.length).getD cache).flush_property_from_cache i))
            ⟨heap.objects ++ [cache]⟩,
         heap.objects.length) := by
    simp only [create_synchronized_assignment_cache_stateful, h]
  have h1get : (CacheHeap.mk (heap.objects ++ [cache])).get heap.objects.length
      = some cache := by
    rw [CacheHeap.get_mk]
    exact List.getElem?_concat_length heap.objects cache
  obtain ⟨hA, hB⟩ := heapFoldWrite
    ((tree_identifiers tree).filter (fun i => i ∉ cache.genome_property_identifiers)
      ++ cache.genome_property_identifiers.filter (fun i => i ∉ tree_identifiers tree))
    ⟨heap.objects ++ [cache]⟩ heap.objects.length cache cache h1get
  have hne : r ≠ heap.objects.length := Nat.ne_of_lt hlt
  have hfirst : (create_synchronized_assignment_cache_stateful heap r tree).1.get r
      = some cache := by
    rw [hstate]
    rw [hB r hne, CacheHeap.get_mk, List.getElem?_append_left hlt]
    exact h
  refine ⟨hfirst, ?_, ?_, ?_⟩
  · rw [hstate]
    exact fun e => hne e.symm
  · rw [hstate]
    exact hA
  · intro v
    rw [hstate]
    show ((_ : CacheHeap).objects.set heap.objects.length v)[r]? = some cache
    rw [List.getElem?_set_ne (fun e => hne e.symm)]
    have := hfirst
    rw [hstate] at this
    exact this

/-- Witness for C6 on a one-object heap. -/
theorem sync_does_not_mutate_input_witness :
    heap0.get 0 = some cacheXNO
  ∧ (create_synchronized_assignment_cache_stateful heap0 0 treeRX).1.get 0
      = some cacheXNO :=
  ⟨rfl, (sync_does_not_mutate_input heap0 0 treeRX cacheXNO rfl).1⟩

/-! Lemmas about table construction. -/

theorem alookup_outerConcat {κ : Type} [DecidableEq κ]
    (tables : List (List (κ × Result))) (k : κ) :
    alookup k (outerConcat tables)
      = if k ∈ firstDedup [] (tables.flatMap keysOf)
        then some (tables.map (fun t => alookup k t)) else none := by
  unfold outerConcat
  exact alookup_map_keys _ _ k

theorem init_eq_some {caches : List AssignmentCache} {tree : GenomePropertiesTree}
    {res : GenomePropertiesResults}
    (h : GenomePropertiesResults.init caches tree = some res) :
    res.sample_names = caches.map AssignmentCache.sample_name
  ∧ res.property_results.columns = caches.map AssignmentCache.sample_name
  ∧ res.step_results.columns = caches.map AssignmentCache.sample_name
  ∧ res.property_results.rows
      = outerConcat (caches.map (fun a => (create_assignment_tables tree a).1))
  ∧ res.step_results.rows
      = outerConcat (caches.map (fun a => (create_assignment_tables tree a).2))
  ∧ res.tree = tree := by
  unfold GenomePropertiesResults.init at h
  by_cases hc : caches.isEmpty
  · rw [if_pos hc] at h
    exact absurd h (by simp)
  · rw [if_neg hc] at h
    injection h with h
    subst h
    exact ⟨rfl, rfl, rfl, rfl, rfl, rfl⟩

/-- C7: both combined tables carry column labels equal to the sample names
of the caches in exactly the order they were supplied, and the two tables
have identical column ordering. -/
theorem init_column_labels (caches : List AssignmentCache) (tree : GenomePropertiesTree)
    (res : GenomePropertiesResults)
    (h : GenomePropertiesResults.init caches tree = some res) :
    res.property_results.columns = caches.map AssignmentCache.sample_name
  ∧ res.step_results.columns = caches.map AssignmentCache.sample_name
  ∧ res.property_results.columns = res.step_results.columns := by
  obtain ⟨-, h1, h2, -, -, -⟩ := init_eq_some h
  exact ⟨h1, h2, h1.trans h2.symm⟩

/-- Witness for C7 at a concrete constructor call. -/
theorem init_column_labels_witness :
    GenomePropertiesResults.init [cacheXNO, cacheEmpty] treeRX = some resXNO
  ∧ resXNO.property_results.columns
      = [cacheXNO, cacheEmpty].map AssignmentCache.sample_name :=
  ⟨rfl, (init_column_labels [cacheXNO, cacheEmpty] treeRX resXNO rfl).1⟩

/-- C3: a lookup for an identifier (or identifier/step-number pair) that is
not a table row returns `NO` once per sample rather than failing, and a
lookup for a present row returns that row's per-sample value vector. -/
theorem get_result_missing_defaults (tree : GenomePropertiesTree)
    (caches : List AssignmentCache) (res : GenomePropertiesResults)
    (h : GenomePropertiesResults.init caches tree = some res)
    (gid : String) (sn : Nat) :
    (alookup gid res.property_results.rows = none →
      res.get_property_result gid = List.replicate caches.length (some Result.NO))
  ∧ (∀ row, alookup gid res.property_results.rows = some row →
      res.get_property_result gid = row)
  ∧ (alookup (gid, sn) res.step_results.rows = none →
      res.get_step_result gid sn = List.replicate caches.length (some Result.NO))
  ∧ (∀ row, alookup (gid, sn) res.step_results.rows = some row →
      res.get_step_result gid sn = row) := by
  obtain ⟨-, h1, h2, -, -, -⟩ := init_eq_some h
  have hlen1 : res.property_results.columns.length = caches.length := by
    rw [h1, List.length_map]
  have hlen2 : res.step_results.columns.length = caches.length := by
    rw [h2, List.length_map]
  refine ⟨?_, ?_, ?_, ?_⟩
  · intro hnone
    simp [GenomePropertiesResults.get_property_result, hnone, hlen1]
  · intro row hrow
    simp [GenomePropertiesResults.get_property_result, hrow]
  · intro hnone
    simp [GenomePropertiesResults.get_step_result, hnone, hlen2]
  · intro row hrow
    simp [GenomePropertiesResults.get_step_result, hrow]

/-- Witness for C3: an identifier absent from every table row yields the
`NO` vector, and a present identifier yields its row. -/
theorem get_result_missing_defaults_witness :
    GenomePropertiesResults.init [cacheXNO, cacheEmpty] treeRX = some resXNO
  ∧ alookup "GP_Q" resXNO.property_results.rows = none
  ∧ resXNO.get_property_result "GP_Q" = List.replicate 2 (some Result.NO)
  ∧ resXNO.get_property_result "GP_R" = [some Result.NO, some Result.NO] :=
  ⟨rfl, rfl,
    (get_result_missing_defaults treeRX [cacheXNO, cacheEmpty] resXNO rfl "GP_Q" 0).1 rfl,
    (get_result_missing_defaults treeRX [cacheXNO, cacheEmpty] resXNO rfl "GP_R" 0).2.1
      [some Result.NO, some Result.NO] rfl⟩

/-- C2 counterexample: in the combined table of `[cacheXNO, cacheEmpty]`
against `treeRX`, the row `GP_X` exists but sample `s2`'s per-sample table
has no value for it, and the combined entry is the missing value `NaN`
(`none`), not the result state `NO` the claim requires. -/
theorem combined_table_default_counterexample :
    GenomePropertiesResults.init [cacheXNO, cacheEmpty] treeRX = some resXNO
  ∧ alookup "GP_X" (create_assignment_tables treeRX cacheEmpty).1 = none
  ∧ alookup "GP_X" resXNO.property_results.rows = some [some Result.NO, none]
  ∧ (none : Cell) ≠ some Result.NO :=
  ⟨rfl, rfl, rfl, by decide⟩

theorem outerConcat_entries {κ : Type} [DecidableEq κ]
    (tables : List (List (κ × Result))) (k : κ) :
    (∀ row, alookup k (outerConcat tables) = some row →
        row = tables.map (fun t => alookup k t))
  ∧ (alookup k (outerConcat tables) = none ↔ ∀ t ∈ tables, alookup k t = none) := by
  constructor
  · intro row hrow
    rw [alookup_outerConcat] at hrow
    by_cases hk : k ∈ firstDedup [] (tables.flatMap keysOf)
    · rw [if_pos hk] at hrow
      injection hrow with hrow
      rw [← hrow]
    · rw [if_neg hk] at hrow
      cases hrow
  · rw [alookup_outerConcat]
    by_cases hk : k ∈ firstDedup [] (tables.flatMap keysOf)
    · rw [if_pos hk]
      constructor
      · intro hnone
        cases hnone
      · intro hall
        obtain ⟨hf, -⟩ := (mem_firstDedup _ _ _).mp hk
        obtain ⟨t, ht, hrt⟩ := List.mem_flatMap.mp hf
        exact absurd hrt ((alookup_eq_none_iff _ _).mp (hall t ht))
    · rw [if_neg hk]
      constructor
      · intro _ t ht
        rw [alookup_eq_none_iff]
        intro hkk
        refine hk ((mem_firstDedup _ _ _).mpr ⟨?_, by simp⟩)
        exact List.mem_flatMap.mpr ⟨t, ht, hkk⟩
      · intro _
        rfl

/-- C2 amended: in both combined tables — property and step alike — each
cell of a row is the per-sample table's value where present, and the
missing value `NaN` (`none`) — not `NO` — where the sample's table has no
value; a row key absent from every per-sample table has no combined row at
all. -/
theorem combined_table_missing_entries (tree : GenomePropertiesTree)
    (caches : List AssignmentCache) (res : GenomePropertiesResults)
    (h : GenomePropertiesResults.init caches tree = some res)
    (r : String) (q : String × Nat) :
    (∀ row, alookup r res.property_results.rows = some row →
        row = caches.map (fun a => alookup r (create_assignment_tables tree a).1))
  ∧ (alookup r res.property_results.rows = none ↔
        ∀ a ∈ caches, alookup r (create_assignment_tables tree a).1 = none)
  ∧ (∀ row, alookup q res.step_results.rows = some row →
        row = caches.map (fun a => alookup q (create_assignment_tables tree a).2))
  ∧ (alookup q res.step_results.rows = none ↔
        ∀ a ∈ caches, alookup q (create_assignment_tables tree a).2 = none) := by
  obtain ⟨-, -, -, h4, h5, -⟩ := init_eq_some h
  obtain ⟨hp1, hp2⟩ :=
    outerConcat_entries (caches.map (fun a => (create_assignment_tables tree a).1)) r
  obtain ⟨hs1, hs2⟩ :=
    outerConcat_entries (caches.map (fun a => (create_assignment_tables tree a).2)) q
  refine ⟨?_, ?_, ?_, ?_⟩
  · intro row hrow
    rw [h4] at hrow
    rw [hp1 row hrow, List.map_map]
    rfl
  · rw [h4, hp2]
    constructor
    · intro hall a ha
      exact hall _ (List.mem_map_of_mem _ ha)
    · intro hall t ht
      obtain ⟨a, ha, rfl⟩ := List.mem_map.mp ht
      exact hall a ha
  · intro row hrow
    rw [h5] at hrow
    rw [hs1 row hrow, List.map_map]
    rfl
  · rw [h5, hs2]
    constructor
    · intro hall a ha
      exact hall _ (List.mem_map_of_mem _ ha)
    · intro hall t ht
      obtain ⟨a, ha, rfl⟩ := List.mem_map.mp ht
      exact hall a ha

/-- Witness for the amended C2 at a concrete constructor call, exercising
the property table (a present row with a `NaN` cell) and the step table
(a key absent from every per-sample step table has no combined row). -/
theorem combined_table_missing_entries_witness :
    GenomePropertiesResults.init [cacheXNO, cacheEmpty] treeRX = some resXNO
  ∧ [some Result.NO, none]
      = [cacheXNO, cacheEmpty].map
          (fun a => alookup "GP_X" (create_assignment_tables treeRX a).1)
  ∧ alookup ("GP_R", 1) resXNO.step_results.rows = none :=
  ⟨rfl,
    (combined_table_missing_entries treeRX [cacheXNO, cacheEmpty] resXNO rfl
        "GP_X" ("GP_R", 1)).1 [some Result.NO, none] rfl,
    (combined_table_missing_entries treeRX [cacheXNO, cacheEmpty] resXNO rfl
        "GP_X" ("GP_R", 1)).2.2.2.mpr (by decide)⟩

/-! Lemmas about the shared-assignment filter. -/

theorem sNunique_eq_one_iff (row : List Cell) (hnm : ∀ c ∈ row, c ≠ none)
    (hne : row ≠ []) :
    sNunique row = 1 ↔ ∀ a ∈ row, ∀ b ∈ row, a = b := by
  unfold sNunique
  rw [firstDedup_length_one_iff]
  constructor
  · rintro ⟨-, hall⟩ a ha b hb
    obtain ⟨x, rfl⟩ := Option.ne_none_iff_exists'.mp (hnm a ha)
    obtain ⟨y, rfl⟩ := Option.ne_none_iff_exists'.mp (hnm b hb)
    have hx : x ∈ row.filterMap id := List.mem_filterMap.mpr ⟨some x, ha, rfl⟩
    have hy : y ∈ row.filterMap id := List.mem_filterMap.mpr ⟨some y, hb, rfl⟩
    rw [hall x hx y hy]
  · intro hall
    constructor
    · match row, hne with
      | c :: t, _ =>
        obtain ⟨x, rfl⟩ := Option.ne_none_iff_exists'.mp (hnm c (List.mem_cons_self _ _))
        simp [List.filterMap_cons]
    · intro x hx y hy
      obtain ⟨a, ha, hax⟩ := List.mem_filterMap.mp hx
      obtain ⟨b, hb, hby⟩ := List.mem_filterMap.mp hy
      have hab := hall a ha b hb
      rw [hab] at hax
      rw [hax] at hby
      injection hby

theorem sUnique_head_cons (c : Cell) (t : List Cell) :
    (sUnique (c :: t)).head? = some c := by
  simp [sUnique, firstDedup]

/-- C4 amended: on a table whose row has at least one sample column and no
missing value, the differential filter keeps the row iff its per-sample
values are not all identical. -/
theorem differing_filter_keeps_iff {κ : Type} (results : ResultTable κ)
    (p : κ × List Cell) (hmem : p ∈ results.rows)
    (hnm : ∀ c ∈ p.2, c ≠ none) (hne : p.2 ≠ []) :
    p ∈ (remove_results_with_shared_assignments results false).rows
      ↔ ¬ (∀ a ∈ p.2, ∀ b ∈ p.2, a = b) := by
  unfold remove_results_with_shared_assignments
  rw [List.mem_filter]
  simp only [hmem, true_and]
  rw [← sNunique_eq_one_iff p.2 hnm hne]
  simp [-ne_eq]

/-- Witness for the amended C4: a row with differing values is kept. -/
theorem differing_filter_keeps_iff_witness :
    ("GP_X", ([some Result.YES, some Result.NO] : List Cell))
        ∈ resDemo.property_results.rows
  ∧ (("GP_X", ([some Result.YES, some Result.NO] : List Cell))
        ∈ (remove_results_with_shared_assignments resDemo.property_results false).rows
      ↔ ¬ (∀ a ∈ ([some Result.YES, some Result.NO] : List Cell),
            ∀ b ∈ ([some Result.YES, some Result.NO] : List Cell), a = b)) :=
  ⟨by decide,
    differing_filter_keeps_iff resDemo.property_results
      ("GP_X", [some Result.YES, some Result.NO]) (by decide) (by decide) (by decide)⟩

/-- C4 counterexample: pipeline-produced row `GP_X` has the two differing
cells `YES` and `NaN`, yet the differential view drops it, against the
claim that every row whose values are not all identical is kept. -/
theorem differing_filter_counterexample :
    GenomePropertiesResults.init [cacheXYES, cacheEmpty] treeRX = some resXYES
  ∧ alookup "GP_X" resXYES.property_results.rows = some [some Result.YES, none]
  ∧ (some Result.YES : Cell) ≠ (none : Cell)
  ∧ alookup "GP_X" resXYES.differing_property_results.rows = none :=
  ⟨rfl, rfl, by decide, rfl⟩

/-- C5 amended: on a table whose row has at least one sample column and no
missing value, the supported-only filter keeps the row iff its per-sample
values are not all `NO`. -/
theorem supported_filter_keeps_iff {κ : Type} (results : ResultTable κ)
    (p : κ × List Cell) (hmem : p ∈ results.rows)
    (hnm : ∀ c ∈ p.2, c ≠ none) (hne : p.2 ≠ []) :
    p ∈ (remove_results_with_shared_assignments results true).rows
      ↔ ¬ (∀ c ∈ p.2, c = some Result.NO) := by
  unfold remove_results_with_shared_assignments
  rw [List.mem_filter]
  simp only [hmem, true_and]
  have key : (sNunique p.2 == 1
        && (!true || (sUnique p.2).head? == some (some Result.NO))) = true
      ↔ ∀ c ∈ p.2, c = some Result.NO := by
    simp only [Bool.not_true, Bool.false_or, Bool.and_eq_true, beq_iff_eq]
    constructor
    · rintro ⟨h1, h2⟩ c hc
      have hall := (sNunique_eq_one_iff p.2 hnm hne).mp h1
      match hrow : p.2, hne with
      | a :: t, _ =>
        rw [hrow] at hall h2 hc
        rw [sUnique_head_cons] at h2
        injection h2 with h2
        have := hall c hc a (List.mem_cons_self _ _)
        rw [this, h2]
    · intro hall
      have h1 : sNunique p.2 = 1 := by
        rw [sNunique_eq_one_iff p.2 hnm hne]
        intro a ha b hb
        rw [hall a ha, hall b hb]
      refine ⟨h1, ?_⟩
      match hrow : p.2, hne with
      | a :: t, _ =>
        rw [hrow] at hall
        rw [sUnique_head_cons, hall a (List.mem_cons_self _ _)]
  constructor
  · intro hkept hall
    rw [Bool.not_eq_true'] at hkept
    exact absurd (key.mpr hall) (by rw [hkept]; exact Bool.false_ne_true)
  · intro hnall
    cases hT : (sNunique p.2 == 1
        && (!true || (sUnique p.2).head? == some (some Result.NO))) with
    | false => simp [hT]
    | true => exact (hnall (key.mp hT)).elim

/-- Witness for the amended C5: a row with a non-`NO` value is kept. -/
theorem supported_filter_keeps_iff_witness :
    ("GP_X", ([some Result.YES, some Result.NO] : List Cell))
        ∈ resDemo.property_results.rows
  ∧ (("GP_X", ([some Result.YES, some Result.NO] : List Cell))
        ∈ (remove_results_with_shared_assignments resDemo.property_results true).rows
      ↔ ¬ (∀ c ∈ ([some Result.YES, some Result.NO] : List Cell),
            c = some Result.NO)) :=
  ⟨by decide,
    supported_filter_keeps_iff resDemo.property_results
      ("GP_X", [some Result.YES, some Result.NO]) (by decide) (by decide) (by decide)⟩

/-- C5 counterexample: pipeline-produced row `GP_X` has cells `NO` and
`NaN` — not every sample value equals `NO` — yet the supported-only view
drops it, against the claim that a row is dropped iff every sample value
equals `NO`. -/
theorem supported_filter_counterexample :
    GenomePropertiesResults.init [cacheXNO, cacheEmpty] treeRX = some resXNO
  ∧ alookup "GP_X" resXNO.property_results.rows = some [some Result.NO, none]
  ∧ (none : Cell) ≠ (some Result.NO : Cell)
  ∧ alookup "GP_X" resXNO.supported_property_results.rows = none :=
  ⟨rfl, rfl, by decide, rfl⟩

/-- C9: every row retained by the differential filter is retained by the
supported-only filter, for the property tables and the step tables alike. -/
theorem differing_subset_supported (res : GenomePropertiesResults)
    (p : String × List Cell) (q : (String × Nat) × List Cell) :
    (p ∈ res.differing_property_results.rows →
      p ∈ res.supported_property_results.rows)
  ∧ (q ∈ res.differing_step_results.rows →
      q ∈ res.supported_step_results.rows) := by
  have key : ∀ (κ : Type) (tbl : ResultTable κ) (x : κ × List Cell),
      x ∈ (remove_results_with_shared_assignments tbl false).rows →
      x ∈ (remove_results_with_shared_assignments tbl true).rows := by
    intro κ tbl x hx
    unfold remove_results_with_shared_assignments at hx ⊢
    rw [List.mem_filter] at hx ⊢
    refine ⟨hx.1, ?_⟩
    have h2 := hx.2
    simp only [Bool.not_false, Bool.true_or, Bool.and_true, Bool.not_eq_true'] at h2
    simp [h2]
  exact ⟨key String res.property_results p, key (String × Nat) res.step_results q⟩

/-- Witness for C9: a differing row of a concrete results object is in both
filtered views. -/
theorem differing_subset_supported_witness :
    ("GP_X", ([some Result.YES, some Result.NO] : List Cell))
        ∈ resDemo.differing_property_results.rows
  ∧ ("GP_X", ([some Result.YES, some Result.NO] : List Cell))
        ∈ resDemo.supported_property_results.rows :=
  ⟨by decide,
    (differing_subset_supported resDemo
        ("GP_X", [some Result.YES, some Result.NO])
        (("GP_X", 1), [some Result.YES, some Result.NO])).1 (by decide)⟩

/-! Lemmas about the JSON tree export. -/

theorem jsonTreeList_eq_map (res : GenomePropertiesResults) (l : List GenomeProperty) :
    jsonTreeList res l = l.map (fun g => res.generate_json_tree g) := by
  induction l with
  | nil => rfl
  | cons g t ih => simp [jsonTreeList, ih]

theorem jsonChildrenOfSteps_eq_flatMap (res : GenomePropertiesResults) (gid : String)
    (steps : List GPStep) :
    jsonChildrenOfSteps res gid steps
      = steps.flatMap (fun s =>
          if s.genome_properties.isEmpty
          then [JsonNode.leafStep s.number s.name false (res.get_step_result gid s.number)]
          else s.genome_properties.map (fun c => res.generate_json_tree c)) := by
  induction steps with
  | nil => rfl
  | cons s t ih =>
    rw [List.flatMap_cons, ← ih]
    cases s with
    | mk n nm r children =>
      cases children with
      | nil =>
        simp [jsonChildrenOfSteps, GPStep.genome_properties, GPStep.number, GPStep.name]
      | cons c ct =>
        simp [jsonChildrenOfSteps, GPStep.genome_properties, GPStep.number, GPStep.name,
          jsonTreeList_eq_map]

/-- C8: `generate_json_tree` produces, for every property node, a property
node tagged with its identifier, display name and per-sample result
vector, whose children are — step by step — the recursively generated
subtrees of the step's child properties, while a step with no child
properties is emitted directly as a leaf node carrying the step number,
name and the step's per-sample result vector. -/
theorem generate_json_tree_structure (res : GenomePropertiesResults)
    (gp : GenomeProperty) :
    res.generate_json_tree gp
      = JsonNode.prop gp.id gp.name false (res.get_property_result gp.id)
          (gp.steps.flatMap (fun s =>
            if s.genome_properties.isEmpty
            then [JsonNode.leafStep s.number s.name false
                    (res.get_step_result gp.id s.number)]
            else s.genome_properties.map (fun c => res.generate_json_tree c))) := by
  cases gp with
  | mk i n steps =>
    show JsonNode.prop i n false (res.get_property_result i)
        (jsonChildrenOfSteps res i steps) = _
    rw [jsonChildrenOfSteps_eq_flatMap]
    rfl

theorem enabledFlagsList_append (l1 l2 : List JsonNode) :
    enabledFlagsList (l1 ++ l2) = enabledFlagsList l1 ++ enabledFlagsList l2 := by
  induction l1 with
  | nil => rfl
  | cons n t ih => simp [enabledFlagsList, ih]

mutual
theorem enabledFlags_generate_false (res : GenomePropertiesResults)
    (gp : GenomeProperty) :
    ∀ b ∈ enabledFlags (res.generate_json_tree gp), b = false := by
  cases gp with
  | mk i n steps =>
    intro b hb
    rw [show res.generate_json_tree (.mk i n steps)
        = JsonNode.prop i n false (res.get_property_result i)
            (jsonChildrenOfSteps res i steps) from rfl] at hb
    rw [enabledFlags] at hb
    rcases List.mem_cons.mp hb with rfl | hb
    · rfl
    · exact enabledFlags_childrenOfSteps_false res i steps b hb

theorem enabledFlags_childrenOfSteps_false (res : GenomePropertiesResults)
    (gid : String) (steps : List GPStep) :
    ∀ b ∈ enabledFlagsList (jsonChildrenOfSteps res gid steps), b = false := by
  match steps with
  | [] =>
    intro b hb
    rw [show jsonChildrenOfSteps res gid [] = [] from rfl,
      show enabledFlagsList [] = [] from rfl] at hb
    cases hb
  | GPStep.mk n nm r [] :: rest =>
    intro b hb
    rw [show jsonChildrenOfSteps res gid (GPStep.mk n nm r [] :: rest)
          = [JsonNode.leafStep n nm false (res.get_step_result gid n)]
            ++ jsonChildrenOfSteps res gid rest from rfl,
      enabledFlagsList_append] at hb
    rcases List.mem_append.mp hb with hb | hb
    · rw [show enabledFlagsList
            [JsonNode.leafStep n nm false (res.get_step_result gid n)]
          = [false] from rfl] at hb
      rcases List.mem_cons.mp hb with rfl | hb
      · rfl
      · cases hb
    · exact enabledFlags_childrenOfSteps_false res gid rest b hb
  | GPStep.mk n nm r (c :: ct) :: rest =>
    intro b hb
    rw [show jsonChildrenOfSteps res gid (GPStep.mk n nm r (c :: ct) :: rest)
          = jsonTreeList res (c :: ct) ++ jsonChildrenOfSteps res gid rest from rfl,
      enabledFlagsList_append] at hb
    rcases List.mem_append.mp hb with hb | hb
    · exact enabledFlags_treeList_false res (c :: ct) b hb
    · exact enabledFlags_childrenOfSteps_false res gid rest b hb

theorem enabledFlags_treeList_false (res : GenomePropertiesResults)
    (l : List GenomeProperty) :
    ∀ b ∈ enabledFlagsList (jsonTreeList res l), b = false := by
  match l with
  | [] =>
    intro b hb
    rw [show jsonTreeList res [] = [] from rfl,
      show enabledFlagsList [] = [] from rfl] at hb
    cases hb
  | g :: t =>
    intro b hb
    rw [show jsonTreeList res (g :: t)
          = res.generate_json_tree g :: jsonTreeList res t from rfl,
      show ∀ x xs, enabledFlagsList (x :: xs) = enabledFlags x ++ enabledFlagsList xs
        from fun _ _ => rfl] at hb
    rcases List.mem_append.mp hb with hb | hb
    · exact enabledFlags_generate_false res g b hb
    · exact enabledFlags_treeList_false res t b hb
end

/-- C10: in the structure produced by `generate_json_tree`, the `enabled`
field of every node — property nodes and leaf step nodes alike — is
`False`, regardless of assignment results. -/
theorem json_tree_enabled_always_false (res : GenomePropertiesResults)
    (gp : GenomeProperty) :
    ∀ b ∈ enabledFlags (res.generate_json_tree gp), b = false :=
  enabledFlags_generate_false res gp

/-- Witness for C10 on a concrete tree with a leaf step. -/
theorem json_tree_enabled_always_false_witness :
    false ∈ enabledFlags
        (resDemo.generate_json_tree
          (GenomeProperty.mk "GP_R" "Root" [GPStep.mk 1 "step one" true []]))
  ∧ false = false :=
  ⟨by decide,
    json_tree_enabled_always_false resDemo
      (GenomeProperty.mk "GP_R" "Root" [GPStep.mk 1 "step one" true []]) false
      (by decide)⟩

end PyGenProp
